import Mathlib

/-!
Verification of the project/agent wizard core: a shallow embedding of the
selection and validation state machine of the repository (ProjectForm,
AgentForm, ProjectWizard) with proofs of the specified properties.

Conventions: string ids mirror the string literals of the source; the
record objects of the source (sportSelections) are association lists with
unique keys; the asynchronous credential submission is modelled as one
atomic step, per the single-actor ordering guarantee of the design.
-/

namespace ProjectAgentWizard

/-- Entry of the static sport catalog (id, name, emoji). -/
structure Sport where
  id : String
  name : String
  emoji : String
deriving DecidableEq, Repr

/-- The fixed sport catalog of ProjectForm (ten entries, source order). -/
def sports : List Sport :=
  [ ⟨"football", "American Football", "🏈"⟩,
    ⟨"soccer", "Football (Soccer)", "⚽"⟩,
    ⟨"basketball", "Basketball", "🏀"⟩,
    ⟨"baseball", "Baseball", "⚾"⟩,
    ⟨"volleyball", "Volleyball", "🏐"⟩,
    ⟨"handball", "Handball", "🤾"⟩,
    ⟨"mma", "MMA", "🥊"⟩,
    ⟨"formula1", "Formula 1", "🏎️"⟩,
    ⟨"hockey", "Hockey", "🏑"⟩,
    ⟨"rugby", "Rugby", "🏉"⟩ ]

/-- Entry of the static data-source catalog. -/
structure DataSource where
  id : String
  name : String
  description : String
  status : String
deriving DecidableEq, Repr

/-- The two data sources of ProjectForm. -/
def dataSourcesCatalog : List DataSource :=
  [ ⟨"machina-core", "Machina Core", "Machina Sports Built-in sports data", "active"⟩,
    ⟨"sportradar", "Sportradar", "Advanced sports data and statistics", "inactive"⟩ ]

/-- Association-list model of the sportSelections record object. -/
abbrev Selections := List (String × List String)

/-- Lookup of a key, as record subscripting: the value of the first
matching key, none when the key is absent. -/
def lookupSel (sel : Selections) (k : String) : Option (List String) :=
  (sel.find? (fun p => p.fst = k)).map Prod.snd

/-- Key deletion, as the delete operator on a record object. -/
def deleteKey (sel : Selections) (k : String) : Selections :=
  sel.filter (fun p => p.fst ≠ k)

/-- Key assignment, as spread-then-assign on a record object: replaces the
value in place when the key exists, appends the pair otherwise. -/
def setKey : Selections → String → List String → Selections
  | [], k, v => [(k, v)]
  | p :: rest, k, v =>
      if p.fst = k then (k, v) :: rest else p :: setKey rest k v

/-- State of the ProjectForm component together with the watched form
fields it mutates (projectName, dataSources, sportSelections) and the
derived sportSelections form error set by the validation effect. -/
structure ProjectFormState where
  projectName : String
  dataSources : List String
  sportSelections : Selections
  currentDataSource : Option String
  tempSelectedSports : List String
  apiKey : String
  sportradarConnected : Bool
  sportSelectionsError : Option String
deriving DecidableEq, Repr

/-- Error text of the validation effect. -/
def sportSelectionsErrorMessage : String :=
  "Please select sports for all selected data sources"

/-- True when some selected source has an empty (or absent) sport list,
mirroring the some-with-empty check of the validation effect. -/
def validationHasErrors (ds : List String) (sel : Selections) : Bool :=
  ds.any (fun sourceId => ((lookupSel sel sourceId).getD []).length == 0)

/-- The error the validation effect leaves on the form: none when no data
source is selected, the message when some selected source has no sports,
none otherwise. -/
def validationMessage (ds : List String) (sel : Selections) : Option String :=
  if ds.length = 0 then none
  else if validationHasErrors ds sel then some sportSelectionsErrorMessage
  else none

/-- The validation useEffect of ProjectForm: recomputes the derived
sportSelections error from the watched fields. -/
def validationEffect (s : ProjectFormState) : ProjectFormState :=
  { s with sportSelectionsError := validationMessage s.dataSources s.sportSelections }

/-- handleDataSourceChange: no-op for sportradar while not connected;
otherwise removes a selected source (pruning its sport selections) or
appends an unselected one. -/
def handleDataSourceChange (s : ProjectFormState) (sourceId : String) : ProjectFormState :=
  if sourceId = "sportradar" ∧ s.sportradarConnected = false then s
  else if s.dataSources.contains sourceId then
    { s with dataSources := s.dataSources.filter (fun id => id ≠ sourceId),
             sportSelections := deleteKey s.sportSelections sourceId }
  else
    { s with dataSources := s.dataSources ++ [sourceId] }

/-- handleDialogOpen: opening seeds the temp sport buffer from the
committed selection of the source; closing clears the buffer. -/
def handleDialogOpen (s : ProjectFormState) (isOpen : Bool) (dataSourceId : Option String) :
    ProjectFormState :=
  match isOpen, dataSourceId with
  | true, some id =>
      { s with currentDataSource := some id,
               tempSelectedSports := (lookupSel s.sportSelections id).getD [] }
  | _, _ => { s with currentDataSource := none, tempSelectedSports := [] }

/-- handleSportSelect: toggles a sport in the temp buffer. -/
def handleSportSelect (temp : List String) (sportId : String) : List String :=
  if temp.contains sportId then temp.filter (fun id => id ≠ sportId)
  else temp ++ [sportId]

/-- handleSelectAll of the sports dialog: clears the temp buffer when its
size equals the catalog size, fills it with every catalog id otherwise. -/
def handleSelectAll (tempSelectedSports : List String) : List String :=
  if tempSelectedSports.length = sports.length then []
  else sports.map (fun sport => sport.id)

/-- handleConfirm: merges the temp buffer into the sport selection of the
currently open source; no source open means no merge. -/
def handleConfirm (s : ProjectFormState) : ProjectFormState :=
  match s.currentDataSource with
  | some id => { s with sportSelections := setKey s.sportSelections id s.tempSelectedSports }
  | none => s

/-- Typing into the API key input. -/
def setApiKey (s : ProjectFormState) (k : String) : ProjectFormState :=
  { s with apiKey := k }

/-- Trim of a credential string: surrounding whitespace dropped from both
ends, written over the character list so that it evaluates by kernel
reduction. -/
def jsTrim (s : String) : String :=
  String.mk (((s.data.dropWhile Char.isWhitespace).reverse.dropWhile Char.isWhitespace).reverse)

/-- handleApiKeySubmit, with the simulated verification round trip applied
as one atomic step: a blank (empty after trim) key returns at once with no
state change and no toast; otherwise the gate connects, sportradar joins
dataSources when absent, the key field clears and a toast is emitted. -/
def handleApiKeySubmit (s : ProjectFormState) : ProjectFormState × List String :=
  if jsTrim s.apiKey = "" then (s, [])
  else
    ({ s with sportradarConnected := true,
              dataSources :=
                if s.dataSources.contains "sportradar" then s.dataSources
                else s.dataSources ++ ["sportradar"],
              apiKey := "" },
     ["Sportradar Connected"])

/-- Removing one sport badge from the committed selection of a source. -/
def removeSportBadge (s : ProjectFormState) (dataSourceId sportId : String) : ProjectFormState :=
  let selectedSports := (lookupSel s.sportSelections dataSourceId).getD []
  let remaining := selectedSports.filter (fun id => id ≠ sportId)
  { s with sportSelections := setKey s.sportSelections dataSourceId remaining }

/-- User intents on the project step. -/
inductive PAction where
  | setName (n : String)
  | toggleSource (sourceId : String)
  | dialogOpen (dataSourceId : String)
  | dialogClose
  | sportSelect (sportId : String)
  | selectAll
  | confirm
  | removeSport (dataSourceId sportId : String)
  | setKeyInput (k : String)
  | submitApiKey
deriving Repr

/-- One user intent before the validation effect re-runs: card clicks
exist only for catalog sources and call the handler only when the source
is active; the confirm button is disabled on an empty temp buffer. -/
def stepRaw (s : ProjectFormState) (a : PAction) : ProjectFormState :=
  match a with
  | .setName n => { s with projectName := n }
  | .toggleSource sourceId =>
      match dataSourcesCatalog.find? (fun src => src.id = sourceId) with
      | some src =>
          if src.id = "machina-core" ∨ s.sportradarConnected = true then
            handleDataSourceChange s src.id
          else s
      | none => s
  | .dialogOpen dataSourceId => handleDialogOpen s true (some dataSourceId)
  | .dialogClose => handleDialogOpen s false none
  | .sportSelect sportId => { s with tempSelectedSports := handleSportSelect s.tempSelectedSports sportId }
  | .selectAll => { s with tempSelectedSports := handleSelectAll s.tempSelectedSports }
  | .confirm => if s.tempSelectedSports.length = 0 then s else handleConfirm s
  | .removeSport dataSourceId sportId => removeSportBadge s dataSourceId sportId
  | .setKeyInput k => setApiKey s k
  | .submitApiKey => (handleApiKeySubmit s).fst

/-- One user intent followed by the validation effect. -/
def step (s : ProjectFormState) (a : PAction) : ProjectFormState :=
  validationEffect (stepRaw s a)

/-- Initial form values of the project wizard, before the first run of the
validation effect. -/
def initialStateRaw : ProjectFormState :=
  { projectName := "", dataSources := ["machina-core"], sportSelections := [],
    currentDataSource := none, tempSelectedSports := [], apiKey := "",
    sportradarConnected := false, sportSelectionsError := none }

/-- Initial state as first rendered (validation effect applied on mount). -/
def initialState : ProjectFormState :=
  validationEffect initialStateRaw

/-- State after a sequence of user intents from the initial state. -/
def run (acts : List PAction) : ProjectFormState :=
  acts.foldl step initialState

/-- A project-form state the user can reach. -/
def PReachable (s : ProjectFormState) : Prop :=
  ∃ acts : List PAction, run acts = s

/-- A source is unlocked when it is the built-in one or the sportradar
gate is connected (the isActive test of the source cards). -/
def sourceUnlocked (s : ProjectFormState) (id : String) : Prop :=
  id = "machina-core" ∨ s.sportradarConnected = true

/-- Entry of the static agent-type catalog. -/
structure AgentType where
  id : String
  name : String
deriving DecidableEq, Repr

/-- The agent types offered by AgentForm. -/
def agentTypes : List AgentType :=
  [ ⟨"chat", "Chat Completion"⟩, ⟨"content", "Content Generation"⟩ ]

/-- Entry of the static tool catalog, with its enabled flag inverted as in
the source (disabled). -/
structure Tool where
  id : String
  label : String
  disabled : Bool
deriving DecidableEq, Repr

/-- The tool catalog of AgentForm (source order; only web search is
enabled). -/
def tools : List Tool :=
  [ ⟨"search", "Web Search", false⟩,
    ⟨"custom", "Custom Data Upload", true⟩,
    ⟨"sentiment", "Fan Sentiment Analysis", true⟩,
    ⟨"crm", "CRM Integration", true⟩,
    ⟨"memory", "Memory", true⟩ ]

/-- Entry of the static output-format catalog. -/
structure OutputFormat where
  id : String
  name : String
  disabled : Bool
deriving DecidableEq, Repr

/-- The output formats of AgentForm (the chat widget is disabled). -/
def outputFormats : List OutputFormat :=
  [ ⟨"text", "Raw Text", false⟩,
    ⟨"json", "JSON", false⟩,
    ⟨"chat", "Chat Widget", true⟩ ]

/-- Values of the agent configuration form. -/
structure AgentFormState where
  agentType : Option String
  tools : List String
  outputFormat : Option String
deriving DecidableEq, Repr

/-- Default values of the agent form (the state reset restores). -/
def agentFormDefaults : AgentFormState :=
  { agentType := none, tools := [], outputFormat := none }

/-- A committed agent (createdAt, presentation-only, is omitted). -/
structure Agent where
  id : String
  type : String
  tools : List String
  outputFormat : String
  active : Bool
deriving DecidableEq, Repr

/-- Tool card click: a no-op on a disabled tool, a membership toggle
otherwise. -/
def clickTool (f : AgentFormState) (tool : Tool) : AgentFormState :=
  if tool.disabled then f
  else if f.tools.contains tool.id then
    { f with tools := f.tools.filter (fun id => id ≠ tool.id) }
  else { f with tools := f.tools ++ [tool.id] }

/-- Output-format card click: a no-op on a disabled format, otherwise the
format id is stored. -/
def clickOutputFormat (f : AgentFormState) (fmt : OutputFormat) : AgentFormState :=
  if fmt.disabled then f else { f with outputFormat := some fmt.id }

/-- State of the dashboard phase of ProjectWizard: the agent registry,
the agent form, the creation flag and the step of the stepped agent
form. -/
structure DashboardState where
  agents : List Agent
  agentForm : AgentFormState
  isCreatingAgent : Bool
  currentStep : Nat
deriving DecidableEq, Repr

/-- Dashboard state when the dashboard first renders. -/
def initialDashboard : DashboardState :=
  { agents := [], agentForm := agentFormDefaults, isCreatingAgent := false, currentStep := 1 }

/-- onSubmitAgent guarded by the submit-button condition (disabled while
agentType or outputFormat is unset): appends a fresh active agent whose id
is agent-(length+1), leaves creation mode and resets the form; with a
missing type or format nothing changes. -/
def onSubmitAgent (d : DashboardState) : DashboardState :=
  match d.agentForm.agentType, d.agentForm.outputFormat with
  | some t, some o =>
      { d with
        agents := d.agents ++
          [ { id := "agent-" ++ toString (d.agents.length + 1),
              type := t, tools := d.agentForm.tools, outputFormat := o, active := true } ],
        isCreatingAgent := false,
        agentForm := agentFormDefaults }
  | _, _ => d

/-- deleteAgent: drops the agent with the given id. -/
def deleteAgent (d : DashboardState) (agentId : String) : DashboardState :=
  { d with agents := d.agents.filter (fun a => a.id ≠ agentId) }

/-- toggleAgentStatus: flips the active flag of the agent with the given
id. -/
def toggleAgentStatus (d : DashboardState) (agentId : String) : DashboardState :=
  { d with agents :=
      d.agents.map (fun a => if a.id = agentId then { a with active := !a.active } else a) }

/-- User intents on the dashboard. -/
inductive AAction where
  | startCreate
  | cancelCreate
  | nextStep
  | prevStep
  | clickType (typeId : String)
  | clickToolCard (toolId : String)
  | clickFormatCard (formatId : String)
  | submitAgent
  | toggleActive (agentId : String)
  | removeAgent (agentId : String)
deriving Repr

/-- One dashboard intent: form clicks exist only while the creation form
is shown, on the pane of the current step, and only for catalog
entries. -/
def astep (d : DashboardState) (a : AAction) : DashboardState :=
  match a with
  | .startCreate => { d with isCreatingAgent := true, currentStep := 1 }
  | .cancelCreate => { d with isCreatingAgent := false }
  | .nextStep =>
      if d.isCreatingAgent then { d with currentStep := min (d.currentStep + 1) 3 } else d
  | .prevStep =>
      if d.isCreatingAgent then { d with currentStep := max (d.currentStep - 1) 1 } else d
  | .clickType typeId =>
      if d.isCreatingAgent ∧ d.currentStep = 1 then
        match agentTypes.find? (fun t => t.id = typeId) with
        | some t => { d with agentForm := { d.agentForm with agentType := some t.id } }
        | none => d
      else d
  | .clickToolCard toolId =>
      if d.isCreatingAgent ∧ d.currentStep = 2 then
        match tools.find? (fun t => t.id = toolId) with
        | some t => { d with agentForm := clickTool d.agentForm t }
        | none => d
      else d
  | .clickFormatCard formatId =>
      if d.isCreatingAgent ∧ d.currentStep = 3 then
        match outputFormats.find? (fun f => f.id = formatId) with
        | some f => { d with agentForm := clickOutputFormat d.agentForm f }
        | none => d
      else d
  | .submitAgent => if d.isCreatingAgent then onSubmitAgent d else d
  | .toggleActive agentId => toggleAgentStatus d agentId
  | .removeAgent agentId => deleteAgent d agentId

/-- Dashboard state after a sequence of intents. -/
def arun (acts : List AAction) : DashboardState :=
  acts.foldl astep initialDashboard

/-- A dashboard state the user can reach. -/
def AReachable (d : DashboardState) : Prop :=
  ∃ acts : List AAction, arun acts = d

/-- Set-style insertion: appends the element unless already present. -/
def setAdd (acc : List String) (x : String) : List String :=
  if acc.contains x then acc else acc ++ [x]

/-- Adds every element of a list into the accumulated set. -/
def addAll (acc : List String) (xs : List String) : List String :=
  xs.foldl setAdd acc

/-- getAllSelectedSports: the deduplicated union of the per-source sport
selections (Set insertion over every value of the record, in order). -/
def getAllSelectedSports (sportSelections : Selections) : List String :=
  sportSelections.foldl (fun acc p => addAll acc p.snd) []

/-- Enabled-only invariant of the dashboard: the agent form and every
committed agent hold only tool ids of enabled catalog tools, and only
output formats of enabled catalog formats. -/
def EnabledInv (d : DashboardState) : Prop :=
  (∀ id ∈ d.agentForm.tools, ∃ t ∈ tools, t.id = id ∧ t.disabled = false) ∧
  (∀ o, d.agentForm.outputFormat = some o →
    ∃ f ∈ outputFormats, f.id = o ∧ f.disabled = false) ∧
  (∀ a ∈ d.agents,
    (∀ id ∈ a.tools, ∃ t ∈ tools, t.id = id ∧ t.disabled = false) ∧
    (∃ f ∈ outputFormats, f.id = a.outputFormat ∧ f.disabled = false))

/-- The derived error field matches the watched fields (what the
validation effect establishes). -/
def ErrConsistent (s : ProjectFormState) : Prop :=
  s.sportSelectionsError = validationMessage s.dataSources s.sportSelections

/-- Sources invariant: every selected source is the built-in one, or
sportradar with its gate connected. -/
def SourcesInv (s : ProjectFormState) : Prop :=
  ∀ id ∈ s.dataSources, id = "machina-core" ∨ (id = "sportradar" ∧ s.sportradarConnected = true)

/-! Helper lemmas shared by the claim theorems. -/

/-- A predicate preserved by every step holds after any foldl run. -/
theorem foldl_preserves {σ α : Type} (f : σ → α → σ) (P : σ → Prop)
    (hstep : ∀ s a, P s → P (f s a)) :
    ∀ (l : List α) (s : σ), P s → P (l.foldl f s)
  | [], _, h => h
  | a :: l, s, h => foldl_preserves f P hstep l (f s a) (hstep s a h)

/-- Deleting a key removes it from lookup. -/
theorem lookupSel_deleteKey_self (sel : Selections) (k : String) :
    lookupSel (deleteKey sel k) k = none := by
  unfold lookupSel deleteKey
  have hnone : (sel.filter (fun p => p.fst ≠ k)).find? (fun p => p.fst = k) = none := by
    rw [List.find?_eq_none]
    intro x hx
    have hne := (List.mem_filter.mp hx).2
    simp only [decide_eq_true_eq] at hne ⊢
    exact hne
  rw [hnone]
  rfl

/-- Assigning a key makes lookup return the assigned value. -/
theorem lookupSel_setKey_self (sel : Selections) (k : String) (v : List String) :
    lookupSel (setKey sel k v) k = some v := by
  induction sel with
  | nil => simp [setKey, lookupSel, List.find?]
  | cons p rest ih =>
      by_cases h : p.fst = k
      · simp [setKey, h, lookupSel, List.find?]
      · unfold setKey
        rw [if_neg h]
        unfold lookupSel
        rw [List.find?_cons_of_neg _ (by simpa using h)]
        exact ih

/-- Assigning one key leaves the lookup of every other key unchanged. -/
theorem lookupSel_setKey_other (sel : Selections) (k kOther : String) (v : List String)
    (h : kOther ≠ k) :
    lookupSel (setKey sel k v) kOther = lookupSel sel kOther := by
  induction sel with
  | nil =>
      simp [setKey, lookupSel, List.find?, Ne.symm h]
  | cons p rest ih =>
      by_cases hp : p.fst = k
      · unfold setKey
        rw [if_pos hp]
        unfold lookupSel
        rw [List.find?_cons_of_neg _ (by simpa using Ne.symm h),
            List.find?_cons_of_neg _ (by simp [hp]; exact fun hh => h (hh ▸ hp.symm ▸ rfl))]
      · unfold setKey
        rw [if_neg hp]
        unfold lookupSel at ih ⊢
        by_cases hq : p.fst = kOther
        · rw [List.find?_cons_of_pos _ (by simpa using hq),
              List.find?_cons_of_pos _ (by simpa using hq)]
        · rw [List.find?_cons_of_neg _ (by simpa using hq),
              List.find?_cons_of_neg _ (by simpa using hq)]
          exact ih

/-- The validation message is present exactly when some selected source
has an empty (or absent) sport list. -/
theorem validationMessage_ne_none (ds : List String) (sel : Selections) :
    validationMessage ds sel ≠ none ↔ ∃ id ∈ ds, (lookupSel sel id).getD [] = [] := by
  have hany : validationHasErrors ds sel = true ↔
      ∃ id ∈ ds, (lookupSel sel id).getD [] = [] := by
    unfold validationHasErrors
    rw [List.any_eq_true]
    constructor
    · rintro ⟨x, hx, hpx⟩
      refine ⟨x, hx, ?_⟩
      rw [← List.length_eq_zero]
      simpa using hpx
    · rintro ⟨x, hx, hempty⟩
      exact ⟨x, hx, by simp [hempty]⟩
  unfold validationMessage
  split
  · next hlen =>
      rw [List.length_eq_zero] at hlen
      subst hlen
      simp
  · next hlen =>
      split
      · next herr =>
          constructor
          · intro _
            exact hany.mp herr
          · intro _
            simp
      · next herr =>
          constructor
          · intro hne
            exact absurd rfl hne
          · intro hex
            exact absurd (hany.mpr hex) herr

/-- The validation effect always leaves a consistent error field. -/
theorem errConsistent_validationEffect (s : ProjectFormState) :
    ErrConsistent (validationEffect s) := rfl

/-- Every reachable project-form state has a consistent error field. -/
theorem errConsistent_reachable (s : ProjectFormState) (h : PReachable s) :
    ErrConsistent s := by
  obtain ⟨acts, rfl⟩ := h
  exact foldl_preserves step ErrConsistent
    (fun t a _ => errConsistent_validationEffect (stepRaw t a)) acts initialState
    (errConsistent_validationEffect initialStateRaw)

/-- A consistent state is a fixed point of the validation effect. -/
theorem validationEffect_eq_self (s : ProjectFormState) (h : ErrConsistent s) :
    validationEffect s = s := by
  cases s
  unfold ErrConsistent at h
  simp only [validationEffect, ProjectFormState.mk.injEq, and_true, true_and]
  exact h.symm

/-- The invariant transfers along equal selected sources and gate flag. -/
theorem sourcesInv_of_fields (s t : ProjectFormState)
    (hds : t.dataSources = s.dataSources)
    (hconn : t.sportradarConnected = s.sportradarConnected)
    (h : SourcesInv s) : SourcesInv t := by
  intro id hid
  rw [hds] at hid
  rw [hconn]
  exact h id hid

/-- The toggle handler keeps the invariant whenever the toggled id is the
built-in source or sportradar while connected. -/
theorem sourcesInv_handleChange (s : ProjectFormState) (sourceId : String)
    (h : SourcesInv s)
    (hid : sourceId = "machina-core" ∨ (sourceId = "sportradar" ∧ s.sportradarConnected = true)) :
    SourcesInv (handleDataSourceChange s sourceId) := by
  unfold handleDataSourceChange
  split
  · exact h
  · split
    · intro id hmem
      exact h id (List.mem_of_mem_filter hmem)
    · intro id hmem
      rcases List.mem_append.mp hmem with hmem' | hmem'
      · exact h id hmem'
      · have heq : id = sourceId := by simpa using hmem'
        subst heq
        exact hid

/-- One step keeps the sources invariant. -/
theorem sourcesInv_step (s : ProjectFormState) (a : PAction) (h : SourcesInv s) :
    SourcesInv (step s a) := by
  have heff : ∀ t : ProjectFormState, SourcesInv t → SourcesInv (validationEffect t) :=
    fun t ht => sourcesInv_of_fields t (validationEffect t) rfl rfl ht
  unfold step
  apply heff
  cases a with
  | setName n => exact h
  | toggleSource sourceId =>
      simp only [stepRaw]
      split
      · next src hfind =>
          split
          · next hactive =>
              apply sourcesInv_handleChange s src.id h
              have hmem : src ∈ dataSourcesCatalog := List.mem_of_find?_eq_some hfind
              rcases hactive with hmc | hconn
              · exact Or.inl hmc
              · have hcases :
                    src = (⟨"machina-core", "Machina Core",
                            "Machina Sports Built-in sports data", "active"⟩ : DataSource) ∨
                    src = (⟨"sportradar", "Sportradar",
                            "Advanced sports data and statistics", "inactive"⟩ : DataSource) := by
                  simpa [dataSourcesCatalog] using hmem
                rcases hcases with hsrc | hsrc
                · subst hsrc
                  exact Or.inl rfl
                · subst hsrc
                  exact Or.inr ⟨rfl, hconn⟩
          · exact h
      · exact h
  | dialogOpen dataSourceId => exact h
  | dialogClose => exact h
  | sportSelect sportId => exact h
  | selectAll => exact h
  | confirm =>
      simp only [stepRaw]
      split
      · exact h
      · unfold handleConfirm
        split
        · exact h
        · exact h
  | removeSport dataSourceId sportId => exact h
  | setKeyInput k => exact h
  | submitApiKey =>
      simp only [stepRaw, handleApiKeySubmit]
      split
      · exact h
      · intro id hmem
        have hmem' : id ∈ (if s.dataSources.contains "sportradar" = true then s.dataSources
            else s.dataSources ++ ["sportradar"]) := hmem
        by_cases hc : s.dataSources.contains "sportradar" = true
        · rw [if_pos hc] at hmem'
          rcases h id hmem' with hmc | ⟨hsr, _⟩
          · exact Or.inl hmc
          · exact Or.inr ⟨hsr, rfl⟩
        · rw [if_neg hc] at hmem'
          rcases List.mem_append.mp hmem' with hmem2 | hmem2
          · rcases h id hmem2 with hmc | ⟨hsr, _⟩
            · exact Or.inl hmc
            · exact Or.inr ⟨hsr, rfl⟩
          · have heq : id = "sportradar" := by simpa using hmem2
            exact Or.inr ⟨heq, rfl⟩

/-- The sources invariant holds in the initial state. -/
theorem sourcesInv_init : SourcesInv initialState := by
  intro id hid
  have : id = "machina-core" := by
    simpa [initialState, validationEffect, initialStateRaw] using hid
  exact Or.inl this

/-- Every reachable project-form state satisfies the sources invariant. -/
theorem sourcesInv_reachable (s : ProjectFormState) (h : PReachable s) :
    SourcesInv s := by
  obtain ⟨acts, rfl⟩ := h
  exact foldl_preserves step SourcesInv sourcesInv_step acts initialState sourcesInv_init


/-- C3: in every reachable project state the derived validation result
reports a sport-selection error exactly when some selected, unlocked data
source has an empty sport set (locked sources never being selected, they
are exempt), and recomputing the validation without an intervening
mutation changes nothing. -/
theorem reachable_validation_iff (s : ProjectFormState) (hs : PReachable s) :
    ((s.sportSelectionsError ≠ none) ↔
      ∃ id ∈ s.dataSources, sourceUnlocked s id ∧
        (lookupSel s.sportSelections id).getD [] = []) ∧
    validationEffect s = s := by
  have herr := errConsistent_reachable s hs
  have hinv := sourcesInv_reachable s hs
  constructor
  · unfold ErrConsistent at herr
    rw [herr, validationMessage_ne_none]
    constructor
    · rintro ⟨id, hid, hempty⟩
      refine ⟨id, hid, ?_, hempty⟩
      rcases hinv id hid with hmc | ⟨_, hconn⟩
      · exact Or.inl hmc
      · exact Or.inr hconn
    · rintro ⟨id, hid, _, hempty⟩
      exact ⟨id, hid, hempty⟩
  · exact validationEffect_eq_self s herr

/-- C3 witness: the theorem applied at the initial state, which is
reachable by the empty action sequence. -/
theorem reachable_validation_iff_witness :
    ((initialState.sportSelectionsError ≠ none) ↔
      ∃ id ∈ initialState.dataSources, sourceUnlocked initialState id ∧
        (lookupSel initialState.sportSelections id).getD [] = []) ∧
    validationEffect initialState = initialState :=
  reachable_validation_iff initialState ⟨[], rfl⟩

/-- C1 counterexample: after the single toggle of machina-core from the
initial state, dataSources is empty rather than still {machina-core} - the
last remaining source is removed, not protected. -/
theorem toggle_last_source_unprotected :
    (run [PAction.toggleSource "machina-core"]).dataSources = [] ∧
    (run [PAction.toggleSource "machina-core"]).dataSources ≠ ["machina-core"] := by
  decide

/-- C1 amended: toggling the sole remaining selected source off is not
rejected and substitutes nothing back: unless it is the locked-sportradar
no-op, the toggle leaves dataSources empty. -/
theorem toggle_removes_last_source (s : ProjectFormState) (sourceId : String)
    (hsole : s.dataSources = [sourceId])
    (hguard : ¬(sourceId = "sportradar" ∧ s.sportradarConnected = false)) :
    (handleDataSourceChange s sourceId).dataSources = [] := by
  unfold handleDataSourceChange
  rw [if_neg hguard]
  have hcontains : s.dataSources.contains sourceId = true := by
    rw [hsole]; simp
  rw [if_pos hcontains]
  show s.dataSources.filter (fun id => id ≠ sourceId) = []
  rw [hsole]
  simp

/-- C1 amended witness: the initial state holds only machina-core, its
toggle is not the locked no-op, and the toggle empties dataSources. -/
theorem toggle_removes_last_source_witness :
    initialState.dataSources = ["machina-core"] ∧
    (handleDataSourceChange initialState "machina-core").dataSources = [] :=
  ⟨by decide, toggle_removes_last_source initialState "machina-core" (by decide) (by decide)⟩

/-- C5: when a toggle removes a selected source, the sport selections of
that source are pruned: its key is absent afterwards. -/
theorem remove_source_prunes_selections (s : ProjectFormState) (sourceId : String)
    (hin : sourceId ∈ s.dataSources)
    (hout : sourceId ∉ (handleDataSourceChange s sourceId).dataSources) :
    lookupSel (handleDataSourceChange s sourceId).sportSelections sourceId = none := by
  by_cases hguard : sourceId = "sportradar" ∧ s.sportradarConnected = false
  · exfalso
    apply hout
    unfold handleDataSourceChange
    rw [if_pos hguard]
    exact hin
  · unfold handleDataSourceChange
    rw [if_neg hguard]
    have hcontains : s.dataSources.contains sourceId = true := by simp [hin]
    rw [if_pos hcontains]
    exact lookupSel_deleteKey_self s.sportSelections sourceId

/-- C5 witness: removing machina-core from the initial state prunes its
(absent) selections key. -/
theorem remove_source_prunes_selections_witness :
    "machina-core" ∈ initialState.dataSources ∧
    lookupSel (handleDataSourceChange initialState "machina-core").sportSelections
      "machina-core" = none :=
  ⟨by decide,
   remove_source_prunes_selections initialState "machina-core" (by decide) (by decide)⟩

/-- C9: confirming the sport dialog touches at most the selections entry
of the currently open source, which it replaces with the temp buffer;
the project name, the selected sources and every other selections entry
are unchanged, and with no open source the selections are unchanged. -/
theorem confirm_frame (s : ProjectFormState) :
    (handleConfirm s).projectName = s.projectName ∧
    (handleConfirm s).dataSources = s.dataSources ∧
    (s.currentDataSource = none → (handleConfirm s).sportSelections = s.sportSelections) ∧
    (∀ cid, s.currentDataSource = some cid →
      lookupSel (handleConfirm s).sportSelections cid = some s.tempSelectedSports ∧
      ∀ id, id ≠ cid →
        lookupSel (handleConfirm s).sportSelections id = lookupSel s.sportSelections id) := by
  unfold handleConfirm
  cases hc : s.currentDataSource with
  | none =>
      refine ⟨rfl, rfl, fun _ => rfl, ?_⟩
      intro cid hcid
      exact absurd hcid (by simp)
  | some id0 =>
      refine ⟨rfl, rfl, fun hnone => absurd hnone (by simp), ?_⟩
      intro cid hcid
      have hid : cid = id0 := by
        injection hcid with h
        exact h.symm
      subst hid
      constructor
      · exact lookupSel_setKey_self s.sportSelections cid s.tempSelectedSports
      · intro id hne
        exact lookupSel_setKey_other s.sportSelections cid id s.tempSelectedSports hne

/-- Membership in a set-insertion. -/
theorem mem_setAdd (acc : List String) (x y : String) :
    y ∈ setAdd acc x ↔ y ∈ acc ∨ y = x := by
  unfold setAdd
  split
  · next hcon =>
      constructor
      · exact Or.inl
      · rintro (hy | rfl)
        · exact hy
        · simpa using hcon
  · simp [List.mem_append]

/-- Set-insertion keeps the no-duplicates property. -/
theorem nodup_setAdd (acc : List String) (x : String) (h : acc.Nodup) :
    (setAdd acc x).Nodup := by
  unfold setAdd
  split
  · exact h
  · next hcon =>
      rw [List.nodup_append]
      refine ⟨h, List.nodup_singleton x, ?_⟩
      intro y hy hx
      have : y = x := by simpa using hx
      subst this
      exact absurd (by simp [hy]) hcon

/-- Membership after inserting a whole list. -/
theorem mem_addAll (xs : List String) :
    ∀ (acc : List String) (y : String), y ∈ addAll acc xs ↔ y ∈ acc ∨ y ∈ xs := by
  induction xs with
  | nil => intro acc y; simp [addAll]
  | cons x rest ih =>
      intro acc y
      show y ∈ addAll (setAdd acc x) rest ↔ _
      rw [ih (setAdd acc x) y, mem_setAdd]
      constructor
      · rintro ((hy | rfl) | hy)
        · exact Or.inl hy
        · exact Or.inr (List.mem_cons_self _ _)
        · exact Or.inr (List.mem_cons_of_mem _ hy)
      · rintro (hy | hy)
        · exact Or.inl (Or.inl hy)
        · rcases List.mem_cons.mp hy with rfl | hy2
          · exact Or.inl (Or.inr rfl)
          · exact Or.inr hy2

/-- Inserting a whole list keeps the no-duplicates property. -/
theorem nodup_addAll (xs : List String) :
    ∀ acc : List String, acc.Nodup → (addAll acc xs).Nodup := by
  induction xs with
  | nil => intro acc h; exact h
  | cons x rest ih =>
      intro acc h
      exact ih (setAdd acc x) (nodup_setAdd acc x h)

/-- Membership after folding the union over every selections entry. -/
theorem mem_union_fold (sel : Selections) :
    ∀ (acc : List String) (y : String),
      y ∈ sel.foldl (fun acc p => addAll acc p.snd) acc ↔
        y ∈ acc ∨ ∃ p ∈ sel, y ∈ p.snd := by
  induction sel with
  | nil => intro acc y; simp
  | cons q rest ih =>
      intro acc y
      show y ∈ rest.foldl _ (addAll acc q.snd) ↔ _
      rw [ih (addAll acc q.snd) y, mem_addAll]
      constructor
      · rintro ((hy | hy) | ⟨p, hp, hy⟩)
        · exact Or.inl hy
        · exact Or.inr ⟨q, List.mem_cons_self _ _, hy⟩
        · exact Or.inr ⟨p, List.mem_cons_of_mem _ hp, hy⟩
      · rintro (hy | ⟨p, hp, hy⟩)
        · exact Or.inl (Or.inl hy)
        · rcases List.mem_cons.mp hp with rfl | hp2
          · exact Or.inl (Or.inr hy)
          · exact Or.inr ⟨p, hp2, hy⟩

/-- The union fold keeps the no-duplicates property. -/
theorem nodup_union_fold (sel : Selections) :
    ∀ acc : List String, acc.Nodup →
      (sel.foldl (fun acc p => addAll acc p.snd) acc).Nodup := by
  induction sel with
  | nil => intro acc h; exact h
  | cons q rest ih =>
      intro acc h
      exact ih (addAll acc q.snd) (nodup_addAll q.snd acc h)

/-- C10: the dashboard aggregate contains a sport exactly when some
per-source selection contains it, and it lists every sport at most
once. -/
theorem getAllSelectedSports_spec (sel : Selections) (x : String) :
    (x ∈ getAllSelectedSports sel ↔ ∃ p ∈ sel, x ∈ p.snd) ∧
    (getAllSelectedSports sel).Nodup := by
  constructor
  · unfold getAllSelectedSports
    rw [mem_union_fold sel [] x]
    simp
  · exact nodup_union_fold sel [] List.nodup_nil

/-- The enabled-only invariant transfers along equal form fields and
agent list. -/
theorem enabledInv_of_fields (d e : DashboardState)
    (htools : e.agentForm.tools = d.agentForm.tools)
    (hfmt : e.agentForm.outputFormat = d.agentForm.outputFormat)
    (hagents : e.agents = d.agents)
    (h : EnabledInv d) : EnabledInv e := by
  refine ⟨?_, ?_, ?_⟩
  · rw [htools]; exact h.1
  · rw [hfmt]; exact h.2.1
  · rw [hagents]; exact h.2.2

/-- One dashboard step keeps the enabled-only invariant. -/
theorem enabledInv_astep (d : DashboardState) (a : AAction) (h : EnabledInv d) :
    EnabledInv (astep d a) := by
  cases a with
  | startCreate => exact h
  | cancelCreate => exact h
  | nextStep =>
      simp only [astep]
      split
      · exact h
      · exact h
  | prevStep =>
      simp only [astep]
      split
      · exact h
      · exact h
  | clickType typeId =>
      simp only [astep]
      split
      · split
        · exact enabledInv_of_fields d _ rfl rfl rfl h
        · exact h
      · exact h
  | clickToolCard toolId =>
      simp only [astep]
      split
      · split
        · next t hfind =>
            have hmem : t ∈ tools := List.mem_of_find?_eq_some hfind
            unfold clickTool
            split
            · exact h
            · next hdis =>
                have hdis2 : t.disabled = false := by
                  revert hdis
                  cases t.disabled <;> simp
                split
                · refine ⟨?_, h.2.1, h.2.2⟩
                  intro id hid
                  exact h.1 id (List.mem_of_mem_filter hid)
                · refine ⟨?_, h.2.1, h.2.2⟩
                  intro id hid
                  rcases List.mem_append.mp hid with hid2 | hid2
                  · exact h.1 id hid2
                  · have : id = t.id := by simpa using hid2
                    subst this
                    exact ⟨t, hmem, rfl, hdis2⟩
        · exact h
      · exact h
  | clickFormatCard formatId =>
      simp only [astep]
      split
      · split
        · next f hfind =>
            have hmem : f ∈ outputFormats := List.mem_of_find?_eq_some hfind
            unfold clickOutputFormat
            split
            · exact h
            · next hdis =>
                have hdis2 : f.disabled = false := by
                  revert hdis
                  cases f.disabled <;> simp
                refine ⟨h.1, ?_, h.2.2⟩
                intro o ho
                have : o = f.id := by
                  injection ho with hh
                  exact hh.symm
                subst this
                exact ⟨f, hmem, rfl, hdis2⟩
        · exact h
      · exact h
  | submitAgent =>
      simp only [astep]
      split
      · unfold onSubmitAgent
        split
        · next t o ht ho =>
            refine ⟨?_, ?_, ?_⟩
            · intro id hid
              exact absurd hid (by simp [agentFormDefaults])
            · intro o2 ho2
              exact absurd ho2 (by simp [agentFormDefaults])
            · intro a ha
              rcases List.mem_append.mp ha with ha2 | ha2
              · exact h.2.2 a ha2
              · have : a = { id := "agent-" ++ toString (d.agents.length + 1), type := t,
                             tools := d.agentForm.tools, outputFormat := o,
                             active := true } := by simpa using ha2
                subst this
                exact ⟨h.1, h.2.1 o ho⟩
        · exact h
      · exact h
  | toggleActive agentId =>
      refine ⟨h.1, h.2.1, ?_⟩
      intro a2 ha2
      have ha3 : a2 ∈ d.agents.map
          (fun a => if a.id = agentId then { a with active := !a.active } else a) := ha2
      rcases List.mem_map.mp ha3 with ⟨a, ha, rfl⟩
      by_cases hid : a.id = agentId
      · rw [if_pos hid]
        exact h.2.2 a ha
      · rw [if_neg hid]
        exact h.2.2 a ha
  | removeAgent agentId =>
      refine ⟨h.1, h.2.1, ?_⟩
      intro a2 ha2
      exact h.2.2 a2 (List.mem_of_mem_filter ha2)

/-- The enabled-only invariant holds initially. -/
theorem enabledInv_init : EnabledInv initialDashboard := by
  refine ⟨?_, ?_, ?_⟩
  · intro id hid
    exact absurd hid (by simp [initialDashboard, agentFormDefaults])
  · intro o ho
    exact absurd ho (by simp [initialDashboard, agentFormDefaults])
  · intro a ha
    exact absurd ha (by simp [initialDashboard])

/-- C8: in every reachable dashboard state, no disabled catalog tool is in
the tool set of the form or of any committed agent, and no disabled
catalog format is the chosen output format anywhere. -/
theorem disabled_never_selected (d : DashboardState) (hd : AReachable d) :
    (∀ t ∈ tools, t.disabled = true → t.id ∉ d.agentForm.tools) ∧
    (∀ f ∈ outputFormats, f.disabled = true → d.agentForm.outputFormat ≠ some f.id) ∧
    (∀ a ∈ d.agents,
      (∀ t ∈ tools, t.disabled = true → t.id ∉ a.tools) ∧
      (∀ f ∈ outputFormats, f.disabled = true → a.outputFormat ≠ f.id)) := by
  have hinv : EnabledInv d := by
    obtain ⟨acts, rfl⟩ := hd
    exact foldl_preserves astep EnabledInv enabledInv_astep acts initialDashboard enabledInv_init
  have huniqT : ∀ t ∈ tools, ∀ u ∈ tools, t.id = u.id → t.disabled = u.disabled := by decide
  have huniqF : ∀ f ∈ outputFormats, ∀ g ∈ outputFormats, f.id = g.id →
      f.disabled = g.disabled := by decide
  refine ⟨?_, ?_, ?_⟩
  · intro t ht hdis hmem
    obtain ⟨u, hu, huid, hudis⟩ := hinv.1 t.id hmem
    rw [huniqT t ht u hu huid.symm] at hdis
    rw [hudis] at hdis
    cases hdis
  · intro f hf hdis hsome
    obtain ⟨g, hg, hgid, hgdis⟩ := hinv.2.1 f.id hsome
    rw [huniqF f hf g hg hgid.symm] at hdis
    rw [hgdis] at hdis
    cases hdis
  · intro a ha
    obtain ⟨hat, g, hg, hgid, hgdis⟩ := hinv.2.2 a ha
    constructor
    · intro t ht hdis hmem
      obtain ⟨u, hu, huid, hudis⟩ := hat t.id hmem
      rw [huniqT t ht u hu huid.symm] at hdis
      rw [hudis] at hdis
      cases hdis
    · intro f hf hdis heq
      have : f.id = g.id := (hgid.trans heq).symm
      rw [huniqF f hf g hg this] at hdis
      rw [hgdis] at hdis
      cases hdis

/-- C8 witness: the theorem at the initial dashboard state, reachable by
the empty action sequence. -/
theorem disabled_never_selected_witness :
    (∀ t ∈ tools, t.disabled = true → t.id ∉ initialDashboard.agentForm.tools) ∧
    (∀ f ∈ outputFormats, f.disabled = true →
      initialDashboard.agentForm.outputFormat ≠ some f.id) ∧
    (∀ a ∈ initialDashboard.agents,
      (∀ t ∈ tools, t.disabled = true → t.id ∉ a.tools) ∧
      (∀ f ∈ outputFormats, f.disabled = true → a.outputFormat ≠ f.id)) :=
  disabled_never_selected initialDashboard ⟨[], rfl⟩

/-- C2: evaluation at the failing input. Create two agents, delete the
first, create a third: the id scheme agent-(length+1) hands the third
agent the id agent-2, already held by the surviving second agent, so the
registry ends with a duplicated id instead of three distinct ids. -/
theorem agent_id_reused_after_delete :
    (arun [AAction.startCreate, AAction.clickType "chat", AAction.nextStep, AAction.nextStep,
           AAction.clickFormatCard "json", AAction.submitAgent,
           AAction.startCreate, AAction.clickType "chat", AAction.nextStep, AAction.nextStep,
           AAction.clickFormatCard "json", AAction.submitAgent,
           AAction.removeAgent "agent-1",
           AAction.startCreate, AAction.clickType "chat", AAction.nextStep, AAction.nextStep,
           AAction.clickFormatCard "json", AAction.submitAgent]).agents.map
      (fun a => a.id) = ["agent-2", "agent-2"] := by decide

/-- C6: with a missing type or format the submit is rejected and nothing
changes; with both set (the tool set free to be empty) exactly one agent
is appended, it is active, carries the form tool set, and the form is
reset to its defaults. -/
theorem commit_agent_spec (d : DashboardState) :
    ((d.agentForm.agentType = none ∨ d.agentForm.outputFormat = none) →
      onSubmitAgent d = d) ∧
    (∀ t o, d.agentForm.agentType = some t → d.agentForm.outputFormat = some o →
      (onSubmitAgent d).agents.length = d.agents.length + 1 ∧
      (onSubmitAgent d).agents =
        d.agents ++ [{ id := "agent-" ++ toString (d.agents.length + 1), type := t,
                       tools := d.agentForm.tools, outputFormat := o, active := true }] ∧
      (onSubmitAgent d).agentForm = agentFormDefaults) := by
  cases hA : d.agentForm.agentType with
  | none =>
      constructor
      · intro _
        unfold onSubmitAgent
        rw [hA]
      · intro t o ht _
        cases ht
  | some t0 =>
      cases hO : d.agentForm.outputFormat with
      | none =>
          constructor
          · intro _
            unfold onSubmitAgent
            rw [hA, hO]
          · intro t o _ ho
            cases ho
      | some o0 =>
          constructor
          · rintro (hn | hn)
            · cases hn
            · cases hn
          · intro t o ht ho
            injection ht with ht2
            injection ho with ho2
            subst ht2
            subst ho2
            have hsub : onSubmitAgent d =
                { d with
                  agents := d.agents ++
                    [ { id := "agent-" ++ toString (d.agents.length + 1),
                        type := t0, tools := d.agentForm.tools, outputFormat := o0,
                        active := true } ],
                  isCreatingAgent := false,
                  agentForm := agentFormDefaults } := by
              unfold onSubmitAgent
              rw [hA, hO]
            rw [hsub]
            refine ⟨by simp, rfl, rfl⟩

/-- C4 counterexample: starting from the full selection (size already
equal to the universe size), two selectAll applications in a row return
the full universe again, not the empty set. -/
theorem selectAll_twice_full_not_empty :
    handleSelectAll (handleSelectAll (sports.map (fun sport => sport.id))) ≠ [] ∧
    handleSelectAll (handleSelectAll (sports.map (fun sport => sport.id))) =
      sports.map (fun sport => sport.id) := by decide

/-- C4 amended: selectAll fills the whole universe unless the current size
already equals the universe size (then it clears), so two applications in
a row return the empty set exactly for starts whose size differs from the
universe size. -/
theorem selectAll_twice_empty (temp : List String) (h : temp.length ≠ sports.length) :
    handleSelectAll (handleSelectAll temp) = [] := by
  have h1 : handleSelectAll temp = sports.map (fun sport => sport.id) := by
    unfold handleSelectAll
    rw [if_neg h]
  rw [h1]
  unfold handleSelectAll
  rw [if_pos (by simp)]

/-- C4 amended witness: the empty start differs in size from the universe
and two selectAll applications return it to empty. -/
theorem selectAll_twice_empty_witness :
    ([] : List String).length ≠ sports.length ∧
    handleSelectAll (handleSelectAll ([] : List String)) = [] :=
  ⟨by decide, selectAll_twice_empty [] (by decide)⟩

/-- C7 counterexample: submitting a whitespace-only credential is a
silent no-op: the state is returned unchanged and the emitted toast list
is empty, so no validation message is surfaced. -/
theorem blank_credential_silent :
    handleApiKeySubmit (setApiKey initialState "   ") =
      (setApiKey initialState "   ", []) := by decide

/-- C7 amended: a credential blank after trim makes the submit a silently
rejected no-op: the whole state (gate flag, dataSources, key field, all
the rest) is unchanged and no message is surfaced. -/
theorem blank_credential_noop (s : ProjectFormState) (h : jsTrim s.apiKey = "") :
    handleApiKeySubmit s = (s, []) := by
  unfold handleApiKeySubmit
  rw [if_pos h]

/-- C7 amended witness: a single-space credential trims to empty and its
submit returns the state unchanged with no message. -/
theorem blank_credential_noop_witness :
    jsTrim (setApiKey initialState " ").apiKey = "" ∧
    handleApiKeySubmit (setApiKey initialState " ") = (setApiKey initialState " ", []) :=
  ⟨by decide, blank_credential_noop (setApiKey initialState " ") (by decide)⟩

end ProjectAgentWizard
